import Mathlib

/-!
Verification development for the Agora core library (crates under src/core).
The Rust sources are shallowly embedded: pure functions become Lean functions,
stateful methods take and return their record state explicitly, and wall-clock
instants are explicit `Nat` ticks passed as a `now` argument.  `HashMap`s are
represented as association lists whose keys are distinct (the `HashMap`
invariant); `get_mut`-style updates are realised by mapping over the matching
entry.  Machine integers are `Nat`/`Int`, with an explicit reduction modulo
`2 ^ w` exactly where the source relies on wrapping.
-/

namespace Agora

/-- Error kinds of the core library (src/core/src/error.rs); only the variants
raised by the embedded components are modelled. -/
inductive Error where
  | Crypto (msg : String)
  | Network (msg : String)
  deriving Repr, DecidableEq

/-- Result alias used throughout the core library. -/
abbrev AgoraResult (α : Type) := Except Error α

/-- Little-endian byte encoding of a 64-bit counter (`u64::to_le_bytes`). -/
def toLEBytes8 (n : Nat) : List Nat :=
  (List.range 8).map fun i => n / 256 ^ i % 256

/-- Little-endian byte decoding (`u64::from_le_bytes`). -/
def fromLEBytes (l : List Nat) : Nat :=
  l.foldr (fun b acc => acc * 256 + b) 0

/-- Keystream byte of the modelled AEAD cipher (see `aeadEncrypt`). -/
def keystreamByte (key nonce : List Nat) (i : Nat) : Nat :=
  key.getD (i % 32) 0 ^^^ nonce.getD (i % 12) 0 ^^^ i % 256

/-- XOR a byte list against the model keystream, starting at stream position `i`. -/
def applyKeystream (key nonce : List Nat) : Nat → List Nat → List Nat
  | _, [] => []
  | i, b :: rest => (b ^^^ keystreamByte key nonce i) :: applyKeystream key nonce (i + 1) rest

/-- Computable model of the chacha20poly1305 crate's AEAD encryption (an
external dependency of crypto.rs, not code of this repository): the ciphertext
is the keystream-masked plaintext followed by an authentication tag.  The tag
is modelled as the key bytes themselves, so that authentication succeeds
exactly when decryption uses the key the message was produced under; that, and
the encrypt/decrypt round trip, are the only properties of the cipher the
library relies on. -/
def aeadEncrypt (key nonce pt : List Nat) : List Nat :=
  applyKeystream key nonce 0 pt ++ key

/-- Computable model of the chacha20poly1305 crate's AEAD decryption: check the
trailing tag against the key, then unmask the body. -/
def aeadDecrypt (key nonce ct : List Nat) : Option (List Nat) :=
  if key.length ≤ ct.length ∧ ct.drop (ct.length - key.length) = key then
    some (applyKeystream key nonce 0 (ct.take (ct.length - key.length)))
  else none

/-- SessionKey (crypto.rs:16): 32-byte key with creation instant and expiry
duration.  Times are `Nat` ticks standing for seconds. -/
structure SessionKey where
  key : List Nat
  createdAt : Nat
  expiresAfter : Nat
  deriving Repr, DecidableEq

/-- crypto.rs:23: default expiry is 3600 seconds. -/
def SessionKey.new (key : List Nat) (now : Nat) : SessionKey :=
  ⟨key, now, 3600⟩

/-- crypto.rs:31. -/
def SessionKey.withExpiry (key : List Nat) (expiresAfter now : Nat) : SessionKey :=
  ⟨key, now, expiresAfter⟩

/-- crypto.rs:39: `self.created_at.elapsed() > self.expires_after`. -/
def SessionKey.isExpired (k : SessionKey) (now : Nat) : Bool :=
  decide (k.expiresAfter < now - k.createdAt)

/-- EncryptedMessage (crypto.rs:57): 12-byte nonce plus ciphertext. -/
structure EncryptedMessage where
  nonce : List Nat
  ciphertext : List Nat
  deriving Repr, DecidableEq

/-- crypto.rs:156: nonce is 4 zero bytes followed by the LE send counter. -/
def deriveNonce (counter : Nat) : List Nat :=
  [0, 0, 0, 0] ++ toLEBytes8 counter

/-- crypto.rs:162: read the counter back from nonce bytes 4..12. -/
def extractCounter (nonce : List Nat) : Nat :=
  fromLEBytes (nonce.drop 4)

/-- crypto.rs:168: retain replay entries whose insertion time is within the
last 300 seconds.  Entries are (counter, insertion time) pairs. -/
def cleanupOldCounters (recvCounters : List (Nat × Nat)) (now : Nat) : List (Nat × Nat) :=
  recvCounters.filter fun p => now - 300 < p.2

/-- EncryptedChannel (crypto.rs:86).  The `cipher` field of the source is
always the AEAD cipher keyed by `session_key` (established by `new`,
`with_peer_key` and `rotate_key`), so it is not stored separately. -/
structure EncryptedChannel where
  sessionKey : SessionKey
  peerPublicKey : Option (List Nat)
  sendCounter : Nat
  recvCounters : List (Nat × Nat)
  deriving Repr, DecidableEq

/-- crypto.rs:95. -/
def EncryptedChannel.new (sessionKey : SessionKey) : EncryptedChannel :=
  ⟨sessionKey, none, 0, []⟩

/-- crypto.rs:117: fail on an expired key, build the nonce from the send
counter, encrypt, and bump the counter with wrapping `u64` addition. -/
def EncryptedChannel.encrypt (ch : EncryptedChannel) (now : Nat) (plaintext : List Nat) :
    AgoraResult EncryptedMessage × EncryptedChannel :=
  if ch.sessionKey.isExpired now then (.error (.Crypto "Session key expired"), ch)
  else
    let nonce := deriveNonce ch.sendCounter
    let ciphertext := aeadEncrypt ch.sessionKey.key nonce plaintext
    (.ok ⟨nonce, ciphertext⟩, { ch with sendCounter := (ch.sendCounter + 1) % 2 ^ 64 })

/-- crypto.rs:133: fail on an expired key, reject counters already in the
replay set, verify and decrypt, then record the counter and prune old
entries. -/
def EncryptedChannel.decrypt (ch : EncryptedChannel) (now : Nat) (message : EncryptedMessage) :
    AgoraResult (List Nat) × EncryptedChannel :=
  if ch.sessionKey.isExpired now then (.error (.Crypto "Session key expired"), ch)
  else
    let counter := extractCounter message.nonce
    if ch.recvCounters.any fun p => p.1 == counter then
      (.error (.Crypto "Replay attack detected"), ch)
    else
      match aeadDecrypt ch.sessionKey.key message.nonce message.ciphertext with
      | none => (.error (.Crypto "Decryption failed"), ch)
      | some plaintext =>
        (.ok plaintext,
         { ch with recvCounters := cleanupOldCounters ((counter, now) :: ch.recvCounters) now })

/-- KeyExchange (crypto.rs:189): the x25519 ephemeral secret is held as an
`Option` and consumed by `compute_shared_secret`. -/
structure KeyExchange where
  secret : Option (List Nat)
  publicKey : List Nat
  deriving Repr, DecidableEq

/-- Computable stand-in for the x25519_dalek crate's `diffie_hellman` (an
external dependency): the development relies only on it being a deterministic
total function of the secret and the peer public key. -/
def diffieHellman (secret peerPublic : List Nat) : List Nat :=
  (List.range 32).map fun i => (3 * secret.getD i 0 + 5 * peerPublic.getD i 0 + i) % 256

/-- crypto.rs:213: `Option::take` the secret, erroring on a second call. -/
def KeyExchange.computeSharedSecret (kx : KeyExchange) (peerPublic : List Nat) :
    AgoraResult (List Nat) × KeyExchange :=
  match kx.secret with
  | none => (.error (.Crypto "Key exchange already completed"), kx)
  | some s => (.ok (diffieHellman s peerPublic), { kx with secret := none })

/-- Computable stand-in for the hkdf crate's HKDF-SHA256 expand with empty salt
and 32-byte output (an external dependency): the development relies only on it
being a deterministic function of the input keying material and the info
bytes. -/
def hkdfSha256Expand32 (ikm info : List Nat) : List Nat :=
  (List.range 32).map fun i =>
    (ikm.getD (i % 32) 0 + 131 * info.getD (i % max info.length 1) 0 + 17 * i + 1) % 256

/-- KeyRotationEvent (crypto.rs:284). -/
structure KeyRotationEvent where
  roomId : String
  newKeyId : Nat
  previousKeyId : Option Nat
  deriving Repr, DecidableEq

/-- SessionKeyInfo (crypto.rs:301); like `EncryptedChannel`, the derived
`cipher` field is not stored separately. -/
structure SessionKeyInfo where
  id : Nat
  key : SessionKey
  sendCounter : Nat
  recvCounters : List (Nat × Nat)
  deriving Repr, DecidableEq

/-- crypto.rs:310. -/
def SessionKeyInfo.new (id : Nat) (key : SessionKey) : SessionKeyInfo :=
  ⟨id, key, 0, []⟩

/-- crypto.rs:321: identical logic to `EncryptedChannel.encrypt` (the source
duplicates it method for method). -/
def SessionKeyInfo.encrypt (info : SessionKeyInfo) (now : Nat) (plaintext : List Nat) :
    AgoraResult EncryptedMessage × SessionKeyInfo :=
  if info.key.isExpired now then (.error (.Crypto "Session key expired"), info)
  else
    let nonce := deriveNonce info.sendCounter
    let ciphertext := aeadEncrypt info.key.key nonce plaintext
    (.ok ⟨nonce, ciphertext⟩, { info with sendCounter := (info.sendCounter + 1) % 2 ^ 64 })

/-- crypto.rs:337: identical logic to `EncryptedChannel.decrypt`. -/
def SessionKeyInfo.decrypt (info : SessionKeyInfo) (now : Nat) (message : EncryptedMessage) :
    AgoraResult (List Nat) × SessionKeyInfo :=
  if info.key.isExpired now then (.error (.Crypto "Session key expired"), info)
  else
    let counter := extractCounter message.nonce
    if info.recvCounters.any fun p => p.1 == counter then
      (.error (.Crypto "Replay attack detected"), info)
    else
      match aeadDecrypt info.key.key message.nonce message.ciphertext with
      | none => (.error (.Crypto "Decryption failed"), info)
      | some plaintext =>
        (.ok plaintext,
         { info with recvCounters := cleanupOldCounters ((counter, now) :: info.recvCounters) now })

/-- crypto.rs:377. -/
def SessionKeyInfo.isExpired (info : SessionKeyInfo) (now : Nat) : Bool :=
  info.key.isExpired now

/-- RoomKeys (crypto.rs:295). -/
structure RoomKeys where
  currentKey : SessionKeyInfo
  previousKey : Option SessionKeyInfo
  nextRotation : Nat
  deriving Repr, DecidableEq

/-- SessionKeyManager (crypto.rs:290).  The `rooms` HashMap is an association
list with pairwise-distinct keys. -/
structure SessionKeyManager where
  rooms : List (String × RoomKeys)
  rotationInterval : Nat
  deriving Repr, DecidableEq

/-- crypto.rs:383: `DEFAULT_KEY_ROTATION_INTERVAL` is 3600 seconds. -/
def SessionKeyManager.new : SessionKeyManager :=
  ⟨[], 3600⟩

/-- crypto.rs:390. -/
def SessionKeyManager.withRotationInterval (m : SessionKeyManager) (interval : Nat) :
    SessionKeyManager :=
  { m with rotationInterval := interval }

/-- Models `HashMap::get` on the rooms map. -/
def lookupRoom : List (String × RoomKeys) → String → Option RoomKeys
  | [], _ => none
  | p :: rest, rid => if p.1 = rid then some p.2 else lookupRoom rest rid

/-- Models `HashMap::get_mut` followed by overwriting the found room. -/
def updateRoom (rooms : List (String × RoomKeys)) (rid : String) (rk : RoomKeys) :
    List (String × RoomKeys) :=
  rooms.map fun p => if p.1 = rid then (rid, rk) else p

/-- Models `HashMap::insert` on the rooms map: replace an existing binding or append. -/
def insertRoom (rooms : List (String × RoomKeys)) (rid : String) (rk : RoomKeys) :
    List (String × RoomKeys) :=
  if rooms.any fun p => p.1 == rid then updateRoom rooms rid rk else rooms ++ [(rid, rk)]

/-- crypto.rs:395: install key id 1 and schedule the first rotation. -/
def SessionKeyManager.createRoom (m : SessionKeyManager) (now : Nat) (roomId : String)
    (initialKey : SessionKey) : Nat × SessionKeyManager :=
  let keyInfo := SessionKeyInfo.new 1 initialKey
  (1, { m with rooms := insertRoom m.rooms roomId ⟨keyInfo, none, now + m.rotationInterval⟩ })

/-- crypto.rs:417: encrypt with the room's current key. -/
def SessionKeyManager.encrypt (m : SessionKeyManager) (now : Nat) (roomId : String)
    (plaintext : List Nat) : AgoraResult EncryptedMessage × SessionKeyManager :=
  match lookupRoom m.rooms roomId with
  | none => (.error (.Crypto "Room not found"), m)
  | some room =>
    let r := room.currentKey.encrypt now plaintext
    (r.1, { m with rooms := updateRoom m.rooms roomId { room with currentKey := r.2 } })

/-- crypto.rs:426: try the current key; on failure fall back to a non-expired
previous key; otherwise fail. -/
def SessionKeyManager.decrypt (m : SessionKeyManager) (now : Nat) (roomId : String)
    (message : EncryptedMessage) : AgoraResult (List Nat) × SessionKeyManager :=
  match lookupRoom m.rooms roomId with
  | none => (.error (.Crypto "Room not found"), m)
  | some room =>
    match room.currentKey.decrypt now message with
    | (.ok pt, ck) =>
      (.ok pt, { m with rooms := updateRoom m.rooms roomId { room with currentKey := ck } })
    | (.error _, _) =>
      match room.previousKey with
      | some prev =>
        if prev.isExpired now then (.error (.Crypto "Decryption failed with all keys"), m)
        else
          let r := prev.decrypt now message
          (r.1, { m with rooms := updateRoom m.rooms roomId { room with previousKey := some r.2 } })
      | none => (.error (.Crypto "Decryption failed with all keys"), m)

/-- crypto.rs:497: the new key is HKDF-derived from the current key with the
new id's LE bytes as info, and expires after one rotation interval. -/
def deriveNewKey (currentKey : SessionKey) (newId : Nat) (rotationInterval now : Nat) :
    SessionKey :=
  SessionKey.withExpiry (hkdfSha256Expand32 currentKey.key (toLEBytes8 newId))
    rotationInterval now

/-- crypto.rs:468: install the derived key under id `old + 1`, demote the
current key to previous, reschedule, and report the event. -/
def rotateRoomKey (roomId : String) (room : RoomKeys) (rotationInterval now : Nat) :
    KeyRotationEvent × RoomKeys :=
  let newKeyId := room.currentKey.id + 1
  let newKey := deriveNewKey room.currentKey.key newKeyId rotationInterval now
  let newKeyInfo := SessionKeyInfo.new newKeyId newKey
  let previousId := room.currentKey.id
  (⟨roomId, newKeyId, some previousId⟩,
   ⟨newKeyInfo, some room.currentKey, now + rotationInterval⟩)

/-- crypto.rs:445: rotate every room whose scheduled instant has passed.  The
source first collects the due room ids from the map and then rotates each via
`get_mut`; over an association list with distinct keys this is the same as
rotating every due entry in place, with the events listed in entry order. -/
def SessionKeyManager.checkRotation (m : SessionKeyManager) (now : Nat) :
    List KeyRotationEvent × SessionKeyManager :=
  let events := (m.rooms.filter fun p => p.2.nextRotation ≤ now).map
    fun p => (rotateRoomKey p.1 p.2 m.rotationInterval now).1
  let rooms := m.rooms.map fun p =>
    if p.2.nextRotation ≤ now then (p.1, (rotateRoomKey p.1 p.2 m.rotationInterval now).2) else p
  (events, { m with rooms := rooms })

/-- CandidateType (ice.rs:15). -/
inductive CandidateType where
  | Host
  | ServerReflexive
  | PeerReflexive
  | Relayed
  deriving Repr, DecidableEq

/-- The type-preference table of `Candidate::calculate_priority` (ice.rs:103). -/
def typePreference : CandidateType → Nat
  | .Host => 126
  | .PeerReflexive => 110
  | .ServerReflexive => 100
  | .Relayed => 0

/-- Candidate::calculate_priority (ice.rs:98): the `u32` expression
`2.pow(24) * type_pref + 2.pow(8) * local_pref + 256 - component_id`, with
`u32` wrapping semantics (the release build wraps on underflow), expressed as
`Int` arithmetic reduced modulo `2 ^ 32`. -/
def calculatePriority (candidateType : CandidateType) (localPref componentId : Nat) : Nat :=
  ((2 ^ 24 * (typePreference candidateType : Int) + 2 ^ 8 * localPref + 256 - componentId)
    % 2 ^ 32).toNat

/-- The candidate-priority formula exactly as the specification states it,
read over the integers: `2^24·typePref + 2^8·localPref + (256 − componentId)`. -/
def specCandidatePriority (candidateType : CandidateType) (localPref componentId : Nat) : Int :=
  2 ^ 24 * (typePreference candidateType : Int) + 2 ^ 8 * localPref + (256 - componentId)

/-- CandidatePair::calculate_pair_priority (ice.rs:196): `g` is the larger of
the two 32-bit priorities and `d` the smaller; the result is the `u64`
expression `2.pow(32) * g.min(d) + 2 * g.max(d) + (g.max(d) - g.min(d))`
(no wrapping occurs for 32-bit inputs). -/
def calculatePairPriority (localPriority remotePriority : Nat) : Nat :=
  let gd := if remotePriority ≤ localPriority then (localPriority, remotePriority)
    else (remotePriority, localPriority)
  2 ^ 32 * min gd.1 gd.2 + 2 * max gd.1 gd.2 + (max gd.1 gd.2 - min gd.1 gd.2)

/-- The pair-priority formula exactly as the specification states it, with
`G = max(localPrio, remotePrio)`, `D = min(localPrio, remotePrio)`:
`2^32·min(G,D) + 2·max(G,D) + (G>D ? 1 : 0)`. -/
def specPairPriority (localPriority remotePriority : Nat) : Nat :=
  let g := max localPriority remotePriority
  let d := min localPriority remotePriority
  2 ^ 32 * min g d + 2 * max g d + (if d < g then 1 else 0)

/-- MixerRole (mixer.rs:10). -/
inductive MixerRole where
  | Peer
  | Mixer
  deriving Repr, DecidableEq

/-- TopologyMode (mixer.rs:143). -/
inductive TopologyMode where
  | FullMesh
  | SFU
  deriving Repr, DecidableEq

/-- ParticipantStats (mixer.rs:16); the floating-point fields are embedded as
exact rationals. -/
structure ParticipantStats where
  bandwidthBps : Nat
  latencyMs : Nat
  latencyVariance : ℚ
  cpuUsagePercent : ℚ
  memoryUsagePercent : ℚ
  sessionDuration : Nat
  packetLossPercent : ℚ
  lastUpdated : Nat
  deriving Repr, DecidableEq

/-- mixer.rs:28. -/
def ParticipantStats.new (now : Nat) : ParticipantStats :=
  ⟨0, 0, 0, 0, 0, 0, 0, now⟩

/-- ScoreWeights (mixer.rs:124). -/
structure ScoreWeights where
  bandwidth : ℚ
  stability : ℚ
  resources : ℚ
  duration : ℚ
  deriving Repr, DecidableEq

/-- mixer.rs:132. -/
def ScoreWeights.default : ScoreWeights :=
  ⟨40 / 100, 25 / 100, 20 / 100, 15 / 100⟩

/-- An audio frame is a vector of f32 samples (audio.rs); embedded as exact
rationals, never computed on in this development. -/
abbrev AudioFrameM := List ℚ

/-- Participant (mixer.rs:65). -/
structure Participant where
  peerId : String
  displayName : Option String
  role : MixerRole
  stats : ParticipantStats
  audioBuffer : List AudioFrameM
  mixerStartTime : Option Nat
  score : ℚ
  deriving Repr, DecidableEq

/-- mixer.rs:76. -/
def Participant.new (peerId : String) (now : Nat) : Participant :=
  ⟨peerId, none, .Peer, ParticipantStats.new now, [], none, 0⟩

/-- MixerConfig (mixer.rs:149).  `Participant::calculate_score` (mixer.rs:88)
computes the weighted score with IEEE f64 arithmetic, including a square root
in the stability subscore; no claim in this development depends on the numeric
value, so the score computation is carried as an abstract function field
`scoreFn` of the configuration, and every theorem about mixer selection holds
for an arbitrary such function. -/
structure MixerConfig where
  maxParticipants : Nat
  fullMeshThreshold : Nat
  rotationInterval : Nat
  scoreWeights : ScoreWeights
  mixingSampleRate : Nat
  scoreFn : ScoreWeights → ParticipantStats → ℚ

/-- mixer.rs:157: `FULL_MESH_MAX_PARTICIPANTS` is 5 and
`MIXER_ROTATION_INTERVAL` 1800 seconds. -/
def MixerConfig.default (scoreFn : ScoreWeights → ParticipantStats → ℚ) : MixerConfig :=
  ⟨20, 5, 1800, ScoreWeights.default, 48000, scoreFn⟩

/-- MixerManager (mixer.rs:169).  The `participants` HashMap is an association
list with pairwise-distinct keys. -/
structure MixerManager where
  config : MixerConfig
  participants : List (String × Participant)
  localPeerId : String
  localRole : MixerRole
  currentMixer : Option String
  mixerStartTime : Option Nat
  topologyMode : TopologyMode
  pendingRotation : Bool

/-- mixer.rs:181. -/
def MixerManager.new (localPeerId : String) (config : MixerConfig) : MixerManager :=
  ⟨config, [], localPeerId, .Peer, none, none, .FullMesh, false⟩

/-- Byte-wise lexicographic order on peer-id strings, as Rust's `String`
ordering used by `Vec::sort` in `resolve_tie` (ASCII peer ids compare
identically byte-wise and character-wise). -/
def lexLe : List Nat → List Nat → Bool
  | [], _ => true
  | _ :: _, [] => false
  | x :: xs, y :: ys => if x < y then true else if x = y then lexLe xs ys else false

/-- Lexicographic comparison of two strings via their character codes. -/
def strLe (a b : String) : Bool :=
  lexLe (a.data.map Char.toNat) (b.data.map Char.toNat)

/-- MixerManager::resolve_tie (mixer.rs:299): sort the candidate peer ids and
take the lexicographically smallest (the source `unwrap`s the head; call sites
pass a non-empty list). -/
def resolveTie (candidates : List (String × ℚ)) : String :=
  (List.insertionSort (fun a b => strLe a b = true) (candidates.map Prod.fst)).headD ""

/-- MixerManager::set_mixer (mixer.rs:310): demote the previous mixer found in
the participants map, record the new mixer and its start instant, and promote
the chosen candidate (the local role when the choice is local, else the
participant entry). -/
def MixerManager.setMixer (m : MixerManager) (now : Nat) (peerId : String) : MixerManager :=
  let isLocal := peerId = m.localPeerId
  let afterDemote :=
    match m.currentMixer with
    | some oldMixer =>
      m.participants.map fun p =>
        if p.1 = oldMixer then (p.1, { p.2 with role := .Peer, mixerStartTime := none }) else p
    | none => m.participants
  let m₁ := { m with participants := afterDemote,
                     currentMixer := some peerId,
                     mixerStartTime := some now }
  if isLocal then { m₁ with localRole := .Mixer }
  else
    { m₁ with participants := m₁.participants.map fun p =>
        if p.1 = peerId then (p.1, { p.2 with role := .Mixer, mixerStartTime := some now }) else p }

/-- The candidate list of `select_mixer` (mixer.rs:252): every participant's
freshly computed score, followed by the local peer's score (computed on a
throwaway `Participant::new`, hence on default stats). -/
def MixerManager.allScores (m : MixerManager) (now : Nat) : List (String × ℚ) :=
  (m.participants.map fun p => (p.1, m.config.scoreFn m.config.scoreWeights p.2.stats)) ++
    [(m.localPeerId, m.config.scoreFn m.config.scoreWeights (ParticipantStats.new now))]

/-- The sort of `select_mixer` (mixer.rs:266): stable sort by score descending.
The source's stable in-place sort and this insertion sort may order equal
scores differently, but every observable outcome of `select_mixer` is the same:
the top branch is taken only when the top score is strictly largest, and the
tie branch re-sorts candidate ids itself. -/
def sortScores (l : List (String × ℚ)) : List (String × ℚ) :=
  List.insertionSort (fun a b => b.2 ≤ a.2) l

/-- MixerManager::select_mixer (mixer.rs:242): outside SFU mode clear the
mixer; otherwise store the recomputed scores, and either resolve a tie
(relative gap of the top two below 5 percent) by `resolve_tie` or pick the top
candidate. -/
def MixerManager.selectMixer (m : MixerManager) (now : Nat) : Option String × MixerManager :=
  if m.topologyMode ≠ .SFU then (none, { m with currentMixer := none })
  else
    let withScores := m.participants.map fun p =>
      (p.1, { p.2 with score := m.config.scoreFn m.config.scoreWeights p.2.stats })
    let m₁ := { m with participants := withScores }
    match sortScores (m.allScores now) with
    | top :: second :: rest =>
      if (top.2 - second.2) / max top.2 (1 / 1000) < 1 / 20 then
        let m₂ := m₁.setMixer now (resolveTie (top :: second :: rest))
        (m₂.currentMixer, m₂)
      else
        let m₂ := m₁.setMixer now top.1
        (m₂.currentMixer, m₂)
    | [top] =>
      let m₂ := m₁.setMixer now top.1
      (m₂.currentMixer, m₂)
    | [] => (m₁.currentMixer, m₁)

/-- MixerManager::update_topology_mode (mixer.rs:218): recompute the mode from
`participants.len() + 1`; on a change into SFU with no current mixer, run
`select_mixer`. -/
def MixerManager.updateTopologyMode (m : MixerManager) (now : Nat) : MixerManager :=
  let count := m.participants.length + 1
  let newMode := if count ≤ m.config.fullMeshThreshold then TopologyMode.FullMesh
    else TopologyMode.SFU
  if newMode ≠ m.topologyMode then
    let m₁ := { m with topologyMode := newMode }
    if newMode = .SFU ∧ m₁.currentMixer = none then (m₁.selectMixer now).2 else m₁
  else m

/-- Models `HashMap::insert` on the participants map. -/
def insertParticipant (participants : List (String × Participant)) (peerId : String)
    (participant : Participant) : List (String × Participant) :=
  if participants.any fun p => p.1 == peerId then
    participants.map fun p => if p.1 = peerId then (peerId, participant) else p
  else participants ++ [(peerId, participant)]

/-- MixerManager::add_participant (mixer.rs:194). -/
def MixerManager.addParticipant (m : MixerManager) (now : Nat) (peerId : String) : MixerManager :=
  ({ m with participants := insertParticipant m.participants peerId (Participant.new peerId now) }
    ).updateTopologyMode now

/-- MixerManager::remove_participant (mixer.rs:200): drop the entry; if the
mixer left, clear it and reselect; then recompute the topology mode. -/
def MixerManager.removeParticipant (m : MixerManager) (now : Nat) (peerId : String) :
    MixerManager :=
  let m₁ := { m with participants := m.participants.filter fun p => ¬ p.1 = peerId }
  let m₂ := if m₁.currentMixer = some peerId then
      ({ m₁ with currentMixer := none }.selectMixer now).2
    else m₁
  m₂.updateTopologyMode now

/-- MixerManager::update_participant_stats (mixer.rs:212). -/
def MixerManager.updateParticipantStats (m : MixerManager) (peerId : String)
    (stats : ParticipantStats) : MixerManager :=
  { m with participants := m.participants.map fun p =>
      if p.1 = peerId then (p.1, { p.2 with stats := stats }) else p }

/-- mixer.rs:362. -/
def MixerManager.isMixer (m : MixerManager) : Bool :=
  decide (m.localRole = MixerRole.Mixer)

/-- mixer.rs:374. -/
def MixerManager.getParticipantCount (m : MixerManager) : Nat :=
  m.participants.length + 1

/-- AudioPacket (protocol.rs:11); samples embedded as exact rationals. -/
structure AudioPacket where
  sequence : Nat
  timestamp : Nat
  peerId : String
  frame : AudioFrameM
  sampleRate : Nat
  channels : Nat
  deriving Repr, DecidableEq

/-- JitterBuffer (protocol.rs:199): a ring of optional packets with monotone
write and read indices. -/
structure JitterBuffer where
  frames : List (Option AudioPacket)
  writeIdx : Nat
  readIdx : Nat
  deriving Repr, DecidableEq

/-- The state `JitterBuffer::new` produces (protocol.rs:206), for a given ring
size; `new` computes the size as `clamp(ceil(delay·rate/frameSize), 5, 50)`,
so reachable sizes lie in `[5, 50]`. -/
def JitterBuffer.empty (size : Nat) : JitterBuffer :=
  ⟨List.replicate size none, 0, 0⟩

/-- protocol.rs:219: write at `write_idx mod size`, bump `write_idx`; a
zero-capacity ring is left untouched. -/
def JitterBuffer.push (b : JitterBuffer) (packet : AudioPacket) : JitterBuffer :=
  if b.frames.length = 0 then b
  else
    { b with frames := b.frames.set (b.writeIdx % b.frames.length) (some packet),
             writeIdx := b.writeIdx + 1 }

/-- protocol.rs:229: take the slot at `read_idx mod size` when
`write_idx > read_idx`, else None. -/
def JitterBuffer.pop (b : JitterBuffer) : Option AudioPacket × JitterBuffer :=
  if b.writeIdx ≤ b.readIdx then (none, b)
  else
    let idx := b.readIdx % b.frames.length
    (b.frames.getD idx none,
     { b with frames := b.frames.set idx none, readIdx := b.readIdx + 1 })

/-- protocol.rs:241: `write_idx.saturating_sub(read_idx)`. -/
def JitterBuffer.bufferDepth (b : JitterBuffer) : Nat :=
  b.writeIdx - b.readIdx

/-- Push a list of packets in order. -/
def pushAll (ps : List AudioPacket) (b : JitterBuffer) : JitterBuffer :=
  ps.foldl JitterBuffer.push b

/-- Pop `n` times in sequence, collecting the results. -/
def popN : Nat → JitterBuffer → List (Option AudioPacket) × JitterBuffer
  | 0, b => ([], b)
  | n + 1, b =>
    let r := b.pop
    let rest := popN n r.2
    (r.1 :: rest.1, rest.2)

/-- UTF-8 bytes of an ASCII string. -/
def strBytes (s : String) : List Nat :=
  s.data.map Char.toNat

/-- The 32-byte all-ones key of scenarios S1 and S2. -/
def exKeyBytes : List Nat :=
  List.replicate 32 1

/-- A session key on `exKeyBytes`, created at time 0 with the default expiry. -/
def exSessionKey : SessionKey :=
  SessionKey.new exKeyBytes 0

/-- A message a peer channel under the same key produced with counter 0. -/
def c1PeerMsg : EncryptedMessage :=
  ((EncryptedChannel.new exSessionKey).encrypt 10 [120]).1.toOption.getD ⟨[], []⟩

/-- A channel that has decrypted `c1PeerMsg`: counter 0 is in its replay set
while its own send counter is still 0. -/
def c1Channel : EncryptedChannel :=
  ((EncryptedChannel.new exSessionKey).decrypt 10 c1PeerMsg).2

/-- Encrypting on `c1Channel` reuses counter 0. -/
def c1Enc : AgoraResult EncryptedMessage × EncryptedChannel :=
  c1Channel.encrypt 10 [42]

/-- The message produced by `c1Enc`. -/
def c1Msg : EncryptedMessage :=
  c1Enc.1.toOption.getD ⟨[], []⟩

/-- The manager of scenario S1: room "abc123" with the all-ones key. -/
def c1Manager : SessionKeyManager :=
  (SessionKeyManager.new.createRoom 0 "abc123" exSessionKey).2

/-- A fresh channel encrypting the bytes of "Test" at time 10. -/
def c2Enc : AgoraResult EncryptedMessage × EncryptedChannel :=
  (EncryptedChannel.new exSessionKey).encrypt 10 (strBytes "Test")

/-- The ciphertext message of `c2Enc`. -/
def c2Msg : EncryptedMessage :=
  c2Enc.1.toOption.getD ⟨[], []⟩

/-- The manager of scenario S2: a 50-tick rotation interval and a room
"test-room" created at time 0 under a key with a 10000-tick lifetime. -/
def c3Manager : SessionKeyManager :=
  ((SessionKeyManager.new.withRotationInterval 50).createRoom 0 "test-room"
    (SessionKey.withExpiry exKeyBytes 10000 0)).2

/-- The room record `c3Manager` holds. -/
def c3Room : RoomKeys :=
  ⟨SessionKeyInfo.new 1 (SessionKey.withExpiry exKeyBytes 10000 0), none, 50⟩

/-- Encrypting the bytes of "pre" at time 10 on `c3Manager`. -/
def c3EncR : AgoraResult EncryptedMessage × SessionKeyManager :=
  c3Manager.encrypt 10 "test-room" (strBytes "pre")

/-- The pre-rotation ciphertext of scenario S2. -/
def c3Msg : EncryptedMessage :=
  c3EncR.1.toOption.getD ⟨[], []⟩

/-- A score function reading off the bandwidth statistic; used to steer the
mixer-selection traces. -/
def exScoreFn : ScoreWeights → ParticipantStats → ℚ :=
  fun _ stats => (stats.bandwidthBps : ℚ)

/-- A configuration with full-mesh threshold 2 (the threshold value is
irrelevant to the mixer-demotion logic; a small one keeps the traces small). -/
def c5Config : MixerConfig :=
  ⟨20, 2, 1800, ScoreWeights.default, 48000, exScoreFn⟩

/-- A mixer manager whose local peer id sorts before every remote id. -/
def c5Start : MixerManager :=
  MixerManager.new "alocal" c5Config

/-- Two remote participants join: the second join crosses the threshold into
SFU and elects the local peer (all scores are 0, the tie resolves to the
lexicographically smallest id "alocal"). -/
def c5AfterJoins : MixerManager :=
  (c5Start.addParticipant 0 "peer_b").addParticipant 0 "peer_c"

/-- Statistics giving "peer_b" a strictly better score than everyone else. -/
def c5Stats : ParticipantStats :=
  ⟨1, 0, 0, 0, 0, 0, 0, 0⟩

/-- After "peer_b" outscores the field, `select_mixer` hands the mixer role to
"peer_b" while the local peer was the previous mixer. -/
def c5Final : MixerManager :=
  ((c5AfterJoins.updateParticipantStats "peer_b" c5Stats).selectMixer 0).2

/-- A manager at its full-mesh threshold (2): the local peer plus one remote,
with no mixer selected. -/
def c6Manager : MixerManager :=
  c5Start.addParticipant 0 "peer_b"

/-- A score function that is constantly 9/10, as in scenario S5. -/
def c7ScoreFn : ScoreWeights → ParticipantStats → ℚ :=
  fun _ _ => 9 / 10

/-- A manager in SFU mode whose candidate set is {peer_c, peer_a, peer_b}, all
scoring 9/10 (the local peer is "peer_a"). -/
def c7Manager : MixerManager :=
  ⟨MixerConfig.default c7ScoreFn,
   [("peer_c", Participant.new "peer_c" 0), ("peer_b", Participant.new "peer_b" 0)],
   "peer_a", .Peer, none, none, .SFU, false⟩

/-- A minimal audio packet with the given sequence number. -/
def c8Packet (i : Nat) : AudioPacket :=
  ⟨i, 0, "peer1", [], 48000, 1⟩

/-- Six packets pushed in order. -/
def c8Six : List AudioPacket :=
  (List.range 6).map fun i => c8Packet (i + 1)

/-- A size-5 ring after six in-order pushes: the sixth write wrapped around and
overwrote slot 0. -/
def c8Over : JitterBuffer :=
  pushAll c8Six (JitterBuffer.empty 5)

/-- A fresh key-exchange instance with a concrete ephemeral secret. -/
def c10KX : KeyExchange :=
  ⟨some (List.replicate 32 7), List.replicate 32 9⟩

theorem fromLE_toLE (n : Nat) : fromLEBytes (toLEBytes8 n) = n % 2 ^ 64 := by
  simp [fromLEBytes, toLEBytes8, List.range_succ]
  omega

theorem extract_derive (c : Nat) : extractCounter (deriveNonce c) = c % 2 ^ 64 := by
  have : (deriveNonce c).drop 4 = toLEBytes8 c := by simp [deriveNonce]
  rw [extractCounter, this, fromLE_toLE]

theorem applyKeystream_length (key nonce : List Nat) (i : Nat) (l : List Nat) :
    (applyKeystream key nonce i l).length = l.length := by
  induction l generalizing i with
  | nil => rfl
  | cons b rest ih => simp [applyKeystream, ih]

theorem applyKeystream_involutive (key nonce : List Nat) (i : Nat) (l : List Nat) :
    applyKeystream key nonce i (applyKeystream key nonce i l) = l := by
  induction l generalizing i with
  | nil => rfl
  | cons b rest ih => simp [applyKeystream, ih, Nat.xor_cancel_right]

theorem aead_round_trip (key nonce pt : List Nat) :
    aeadDecrypt key nonce (aeadEncrypt key nonce pt) = some pt := by
  have hlen : (applyKeystream key nonce 0 pt).length = pt.length :=
    applyKeystream_length key nonce 0 pt
  have hsub : (applyKeystream key nonce 0 pt ++ key).length - key.length =
      (applyKeystream key nonce 0 pt).length := by
    simp
  rw [aeadDecrypt, aeadEncrypt, if_pos]
  · rw [hsub, List.take_left, applyKeystream_involutive]
  · exact ⟨by simp, by rw [hsub, List.drop_left]⟩

theorem aead_wrong_key (key key' nonce nonce' pt : List Nat) (hlen : key'.length = key.length)
    (hne : key' ≠ key) : aeadDecrypt key' nonce' (aeadEncrypt key nonce pt) = none := by
  have hsub : (applyKeystream key nonce 0 pt ++ key).length - key'.length =
      (applyKeystream key nonce 0 pt).length := by
    simp [hlen]
  rw [aeadDecrypt, aeadEncrypt, if_neg]
  rintro ⟨-, h2⟩
  rw [hsub, List.drop_left] at h2
  exact hne h2.symm

/-- C4 counterexample: for 32-bit priorities 3 and 1 the code's pair priority
(2^32 + 8) differs from the specification's formula (2^32 + 7). -/
theorem C4_counterexample : calculatePairPriority 3 1 ≠ specPairPriority 3 1 := by decide

/-- C4 (amended): for every pair of candidates with priorities localPrio and
remotePrio, the 64-bit pair priority equals
2^32·min(G,D) + 2·max(G,D) + (G − D), where G is the larger and D the smaller
of the two priorities — the final term is the full difference G − D, not the
0/1 indicator the specification states. -/
theorem C4_pair_priority (localPriority remotePriority : Nat) :
    calculatePairPriority localPriority remotePriority =
      2 ^ 32 * min localPriority remotePriority + 2 * max localPriority remotePriority +
        (max localPriority remotePriority - min localPriority remotePriority) := by
  unfold calculatePairPriority
  rcases le_or_lt remotePriority localPriority with h | h
  · simp [h]
  · simp [h.not_le, min_comm, max_comm]

/-- C9 counterexample: for a Relayed candidate with local preference 0 and
component id 257 the u32 computation wraps to 2^32 − 1, which differs from the
specification's integer formula (−1) and outranks a Host candidate. -/
theorem C9_counterexample :
    ((calculatePriority .Relayed 0 257 : Int) ≠ specCandidatePriority .Relayed 0 257) ∧
      calculatePriority .Host 0 257 < calculatePriority .Relayed 0 257 := by
  constructor
  · decide
  · decide

/-- C9 (amended): for every candidate type, 16-bit local preference and 16-bit
component id, the computed priority equals the specification's formula reduced
modulo 2^32 (hence the formula itself whenever it is nonnegative), and for
component ids up to 256 — in particular the real ICE components 1 and 2 — the
priorities of candidates sharing a component id and local preference are
strictly ordered Host > PeerReflexive > ServerReflexive > Relayed. -/
theorem C9_candidate_priority (t : CandidateType) (localPref componentId : Nat)
    (h1 : localPref < 2 ^ 16) (h2 : componentId < 2 ^ 16) :
    ((calculatePriority t localPref componentId : Int) =
      specCandidatePriority t localPref componentId % 2 ^ 32) ∧
    (componentId ≤ 256 →
      calculatePriority .Relayed localPref componentId <
          calculatePriority .ServerReflexive localPref componentId ∧
        calculatePriority .ServerReflexive localPref componentId <
          calculatePriority .PeerReflexive localPref componentId ∧
        calculatePriority .PeerReflexive localPref componentId <
          calculatePriority .Host localPref componentId) := by
  constructor
  · cases t <;>
      simp only [calculatePriority, specCandidatePriority, typePreference] <;>
      norm_num <;> omega
  · intro h3
    refine ⟨?_, ?_, ?_⟩ <;>
      simp only [calculatePriority, typePreference] <;> norm_num <;> omega

/-- C9 witness: the amended statement at Host, local preference 0,
component id 1. -/
theorem C9_witness :
    (0 : Nat) < 2 ^ 16 ∧ (1 : Nat) < 2 ^ 16 ∧
      ((calculatePriority .Host 0 1 : Int) = specCandidatePriority .Host 0 1 % 2 ^ 32) :=
  ⟨by decide, by decide, (C9_candidate_priority .Host 0 1 (by decide) (by decide)).1⟩

/-- C10: compute_shared_secret succeeds at most once per KeyExchange: a call in
the armed state returns the shared secret and consumes the ephemeral secret,
and every call on a consumed instance — in particular any second call on the
same instance — returns the Crypto error "Key exchange already completed". -/
theorem C10_key_exchange_once (kx : KeyExchange) (s peerPublic peerPublic2 : List Nat)
    (h : kx.secret = some s) :
    (kx.computeSharedSecret peerPublic).1 = .ok (diffieHellman s peerPublic) ∧
    ((kx.computeSharedSecret peerPublic).2).secret = none ∧
    (∀ (kx2 : KeyExchange) (peerPublic3 : List Nat), kx2.secret = none →
      (kx2.computeSharedSecret peerPublic3).1 =
        .error (.Crypto "Key exchange already completed")) ∧
    (((kx.computeSharedSecret peerPublic).2).computeSharedSecret peerPublic2).1 =
      .error (.Crypto "Key exchange already completed") := by
  refine ⟨?_, ?_, ?_, ?_⟩
  · simp [KeyExchange.computeSharedSecret, h]
  · simp [KeyExchange.computeSharedSecret, h]
  · intro kx2 pp3 h2
    simp [KeyExchange.computeSharedSecret, h2]
  · simp [KeyExchange.computeSharedSecret, h]

/-- C10 witness: the theorem applied to a concrete armed instance. -/
theorem C10_witness :
    c10KX.secret = some (List.replicate 32 7) ∧
      ((c10KX.computeSharedSecret (List.replicate 32 11)).2).secret = none :=
  ⟨rfl, (C10_key_exchange_once c10KX (List.replicate 32 7) (List.replicate 32 11)
    (List.replicate 32 11) rfl).2.1⟩

theorem lookup_updateRoom (rooms : List (String × RoomKeys)) (rid : String) (rk : RoomKeys)
    (room : RoomKeys) (h : lookupRoom rooms rid = some room) :
    lookupRoom (updateRoom rooms rid rk) rid = some rk := by
  induction rooms with
  | nil => simp [lookupRoom] at h
  | cons p rest ih =>
    by_cases hp : p.1 = rid
    · simp [updateRoom, lookupRoom, hp]
    · rw [lookupRoom, if_neg hp] at h
      simpa [updateRoom, lookupRoom, hp] using ih h

/-- C1 (amended): for every EncryptedChannel (or SessionKeyManager room) whose
session key is not expired AND whose current send counter is not already in its
receive replay set — true in particular of any fresh channel or room — and
every byte sequence p, encrypting p and then decrypting the result on the same
channel or manager returns exactly p. -/
theorem C1_round_trip :
    (∀ (ch : EncryptedChannel) (now : Nat) (p : List Nat),
      ch.sessionKey.isExpired now = false →
      ch.sendCounter < 2 ^ 64 →
      (ch.recvCounters.any fun q => q.1 == ch.sendCounter) = false →
      ∃ (msg : EncryptedMessage) (ch₁ : EncryptedChannel),
        ch.encrypt now p = (.ok msg, ch₁) ∧ (ch₁.decrypt now msg).1 = .ok p) ∧
    (∀ (m : SessionKeyManager) (now : Nat) (rid : String) (room : RoomKeys) (p : List Nat),
      lookupRoom m.rooms rid = some room →
      room.currentKey.key.isExpired now = false →
      room.currentKey.sendCounter < 2 ^ 64 →
      (room.currentKey.recvCounters.any fun q => q.1 == room.currentKey.sendCounter) = false →
      ∃ (msg : EncryptedMessage) (m₁ : SessionKeyManager),
        m.encrypt now rid p = (.ok msg, m₁) ∧ (m₁.decrypt now rid msg).1 = .ok p) := by
  constructor
  · intro ch now p hexp hlt hfresh
    refine ⟨⟨deriveNonce ch.sendCounter, aeadEncrypt ch.sessionKey.key
      (deriveNonce ch.sendCounter) p⟩, { ch with sendCounter := (ch.sendCounter + 1) % 2 ^ 64 },
      ?_, ?_⟩
    · rw [EncryptedChannel.encrypt, if_neg (by simp [hexp])]
    · simp only [EncryptedChannel.decrypt, hexp, Bool.false_eq_true, if_false,
        extract_derive, Nat.mod_eq_of_lt hlt, hfresh, aead_round_trip]
  · intro m now rid room p hlook hexp hlt hfresh
    refine ⟨⟨deriveNonce room.currentKey.sendCounter,
      aeadEncrypt room.currentKey.key.key (deriveNonce room.currentKey.sendCounter) p⟩,
      { m with rooms := updateRoom m.rooms rid { room with currentKey :=
        { room.currentKey with
          sendCounter := (room.currentKey.sendCounter + 1) % 2 ^ 64 } } }, ?_, ?_⟩
    · rw [SessionKeyManager.encrypt, hlook]
      simp only [SessionKeyInfo.encrypt, hexp, Bool.false_eq_true, if_false]
    · rw [SessionKeyManager.decrypt,
        lookup_updateRoom m.rooms rid _ room hlook]
      simp only [SessionKeyInfo.decrypt, hexp, Bool.false_eq_true, if_false,
        extract_derive, Nat.mod_eq_of_lt hlt, hfresh, aead_round_trip]

/-- C1 counterexample: the claim as stated fails on a channel that has already
received a message carrying its own next send counter.  `c1Channel` holds the
unexpired all-ones key and replay set {0} while its send counter is still 0;
encrypting [42] and decrypting the result on the same channel yields a replay
error rather than [42]. -/
theorem C1_counterexample :
    c1Channel.sessionKey.isExpired 10 = false ∧
      c1Enc.1 = .ok c1Msg ∧
      (c1Enc.2.decrypt 10 c1Msg).1 = .error (.Crypto "Replay attack detected") := by
  refine ⟨by decide, rfl, rfl⟩

/-- C1 witness: the amended round trip applied to the fresh channel on the
all-ones key and to the S1 manager with room "abc123" and the bytes of
"Hello, secure world!". -/
theorem C1_witness :
    ((EncryptedChannel.new exSessionKey).sessionKey.isExpired 10 = false ∧
      ∃ (msg : EncryptedMessage) (ch₁ : EncryptedChannel),
        (EncryptedChannel.new exSessionKey).encrypt 10 (strBytes "Hello, secure world!") =
          (.ok msg, ch₁) ∧
        (ch₁.decrypt 10 msg).1 = .ok (strBytes "Hello, secure world!")) ∧
    ∃ (msg : EncryptedMessage) (m₁ : SessionKeyManager),
      c1Manager.encrypt 10 "abc123" (strBytes "Hello, secure world!") = (.ok msg, m₁) ∧
        (m₁.decrypt 10 "abc123" msg).1 = .ok (strBytes "Hello, secure world!") :=
  ⟨⟨by decide, C1_round_trip.1 (EncryptedChannel.new exSessionKey) 10 _ (by decide) (by decide)
      (by decide)⟩,
   C1_round_trip.2 c1Manager 10 "abc123" ⟨SessionKeyInfo.new 1 exSessionKey, none, 3600⟩ _
      (by decide) (by decide) (by decide) (by decide)⟩

/-- C2: a ciphertext produced by encrypt under an unexpired key, presented
twice to a receiving channel that holds the same key, is not expired, and has
not yet seen the message's counter, decrypts successfully the first time —
inserting the extracted counter into the replay set — and is rejected with the
Crypto replay error the second time. -/
theorem C2_replay_rejection (sender receiver : EncryptedChannel) (now : Nat) (p : List Nat)
    (msg : EncryptedMessage) (sender₁ : EncryptedChannel)
    (hexp : sender.sessionKey.isExpired now = false)
    (hlt : sender.sendCounter < 2 ^ 64)
    (henc : sender.encrypt now p = (.ok msg, sender₁))
    (hkey : receiver.sessionKey.key = sender.sessionKey.key)
    (hrexp : receiver.sessionKey.isExpired now = false)
    (hfresh : (receiver.recvCounters.any fun q => q.1 == sender.sendCounter) = false)
    (hnow : 1 ≤ now) :
    (receiver.decrypt now msg).1 = .ok p ∧
      (((receiver.decrypt now msg).2).recvCounters.any fun q =>
        q.1 == sender.sendCounter) = true ∧
      (((receiver.decrypt now msg).2).decrypt now msg).1 =
        .error (.Crypto "Replay attack detected") := by
  rw [EncryptedChannel.encrypt, if_neg (by simp [hexp])] at henc
  simp only [Prod.mk.injEq, Except.ok.injEq] at henc
  obtain ⟨hmsg, -⟩ := henc
  subst hmsg
  have hcnt : extractCounter (deriveNonce sender.sendCounter) = sender.sendCounter := by
    rw [extract_derive, Nat.mod_eq_of_lt hlt]
  have h1 : (receiver.decrypt now
      ⟨deriveNonce sender.sendCounter,
        aeadEncrypt sender.sessionKey.key (deriveNonce sender.sendCounter) p⟩) =
      (.ok p, { receiver with recvCounters :=
        (cleanupOldCounters ((sender.sendCounter, now) :: receiver.recvCounters) now) }) := by
    simp only [EncryptedChannel.decrypt, hrexp, Bool.false_eq_true, if_false, hcnt, hfresh,
      hkey, aead_round_trip]
  rw [h1]
  have hmem : (cleanupOldCounters ((sender.sendCounter, now) :: receiver.recvCounters) now).any
      (fun q => q.1 == sender.sendCounter) = true := by
    have hkeep : now - 300 < now := by omega
    simp [cleanupOldCounters, hkeep]
  refine ⟨rfl, hmem, ?_⟩
  simp only [EncryptedChannel.decrypt, hrexp, Bool.false_eq_true, if_false, hcnt, hmem, if_true]

/-- C2 witness: the theorem applied to two fresh channels on the all-ones key
and the bytes of "Test". -/
theorem C2_witness :
    ((EncryptedChannel.new exSessionKey).decrypt 10 c2Msg).1 = .ok (strBytes "Test") ∧
      ((((EncryptedChannel.new exSessionKey).decrypt 10 c2Msg).2).decrypt 10 c2Msg).1 =
        .error (.Crypto "Replay attack detected") :=
  have h := C2_replay_rejection (EncryptedChannel.new exSessionKey)
    (EncryptedChannel.new exSessionKey) 10 (strBytes "Test") c2Msg c2Enc.2
    (by decide) (by decide) rfl rfl (by decide) (by decide) (by decide)
  ⟨h.1, h.2.2⟩

theorem set_append_left {α : Type} (l₁ l₂ : List α) (v : α) (n : Nat) (h : n = l₁.length) :
    (l₁ ++ l₂).set n v = l₁ ++ l₂.set 0 v := by
  subst h
  induction l₁ with
  | nil => simp
  | cons a l ih => simp only [List.cons_append, List.length_cons, List.set_cons_succ, ih]

theorem getD_append_right {α : Type} (l₁ l₂ : List α) (d : α) (n : Nat) (h : n = l₁.length) :
    (l₁ ++ l₂).getD n d = l₂.getD 0 d := by
  subst h
  induction l₁ with
  | nil => simp
  | cons a l ih => simpa using ih

theorem pushAll_empty (ps : List AudioPacket) :
    ∀ (done : List (Option AudioPacket)) (mfree : Nat), ps.length ≤ mfree →
    pushAll ps ⟨done ++ List.replicate mfree none, done.length, 0⟩ =
      ⟨done ++ ps.map some ++ List.replicate (mfree - ps.length) none,
       done.length + ps.length, 0⟩ := by
  induction ps with
  | nil => intro done mfree _; simp [pushAll]
  | cons p rest ih =>
    intro done mfree h
    rw [List.length_cons] at h
    obtain ⟨m', rfl⟩ : ∃ m', mfree = m' + 1 := ⟨mfree - 1, by omega⟩
    have hlen : (done ++ List.replicate (m' + 1) (none : Option AudioPacket)).length =
        done.length + (m' + 1) := by simp
    have hmod : done.length % (done ++ List.replicate (m' + 1)
        (none : Option AudioPacket)).length = done.length := by
      rw [hlen]
      exact Nat.mod_eq_of_lt (by omega)
    have hset : (done ++ List.replicate (m' + 1) (none : Option AudioPacket)).set
        done.length (some p) = (done ++ [some p]) ++ List.replicate m' none := by
      rw [set_append_left _ _ _ _ rfl, List.replicate_succ, List.set_cons_zero]
      simp
    have hpush : JitterBuffer.push ⟨done ++ List.replicate (m' + 1) none, done.length, 0⟩ p =
        ⟨(done ++ [some p]) ++ List.replicate m' none, (done ++ [some p]).length, 0⟩ := by
      rw [JitterBuffer.push, if_neg (by simp)]
      simp only [hmod, hset]
      simp
    rw [pushAll, List.foldl_cons, ← pushAll, hpush, ih (done ++ [some p]) m' (by omega)]
    simp [List.append_assoc, Nat.succ_sub_succ, JitterBuffer.mk.injEq]
    omega

theorem popN_drain (ps : List AudioPacket) :
    ∀ (j mtail : Nat),
    popN ps.length ⟨List.replicate j none ++ ps.map some ++ List.replicate mtail none,
      j + ps.length, j⟩ =
      (ps.map some,
       ⟨List.replicate (j + ps.length) none ++ List.replicate mtail none, j + ps.length,
        j + ps.length⟩) := by
  induction ps with
  | nil => intro j mtail; simp [popN]
  | cons p rest ih =>
    intro j mtail
    have hlen : (List.replicate j (none : Option AudioPacket) ++ List.map some (p :: rest) ++
        List.replicate mtail none).length = j + (rest.length + 1) + mtail := by
      simp
      omega
    have hmod : j % (List.replicate j (none : Option AudioPacket) ++ List.map some (p :: rest) ++
        List.replicate mtail none).length = j := by
      rw [hlen]
      exact Nat.mod_eq_of_lt (by omega)
    have hget : (List.replicate j (none : Option AudioPacket) ++ List.map some (p :: rest) ++
        List.replicate mtail none).getD j none = some p := by
      rw [List.append_assoc, getD_append_right _ _ _ _ (by simp)]
      simp
    have hset : (List.replicate j (none : Option AudioPacket) ++ List.map some (p :: rest) ++
        List.replicate mtail none).set j none =
        List.replicate (j + 1) none ++ rest.map some ++ List.replicate mtail none := by
      rw [List.append_assoc, set_append_left _ _ _ _ (by simp)]
      simp [List.replicate_succ', List.append_assoc]
    have hpop : JitterBuffer.pop ⟨List.replicate j none ++ (p :: rest).map some ++
        List.replicate mtail none, j + (rest.length + 1), j⟩ =
        (some p, ⟨List.replicate (j + 1) none ++ rest.map some ++ List.replicate mtail none,
          j + (rest.length + 1), j + 1⟩) := by
      rw [JitterBuffer.pop, if_neg (show ¬(j + (rest.length + 1) ≤ j) by omega)]
      simp only [hmod, hget, hset]
    have harith : j + (rest.length + 1) = (j + 1) + rest.length := by omega
    rw [List.length_cons, popN, hpop]
    rw [harith, ih (j + 1) mtail]
    have harith2 : (j + 1) + rest.length = j + (rest.length + 1) := by omega
    simp [harith2]

/-- C8 (amended): pop returns the slot at read_idx mod size exactly when
write_idx > read_idx and None otherwise; and in-order pushes read back in FIFO
order as long as the buffered packets never exceed the ring capacity — pushing
at most `size` packets into a fresh buffer and then popping returns exactly the
pushed packets in order and leaves buffer_depth 0.  (Once pushes outrun the
capacity, the ring overwrites its oldest slot and FIFO order is lost; see the
counterexample.) -/
theorem C8_jitter_fifo :
    (∀ (b : JitterBuffer), 0 < b.frames.length →
      (b.pop).1 = if b.readIdx < b.writeIdx then
        b.frames.getD (b.readIdx % b.frames.length) none else none) ∧
    (∀ (ps : List AudioPacket) (size : Nat), ps.length ≤ size →
      (popN ps.length (pushAll ps (JitterBuffer.empty size))).1 = ps.map some ∧
      (popN ps.length (pushAll ps (JitterBuffer.empty size))).2.bufferDepth = 0) := by
  constructor
  · intro b _
    rw [JitterBuffer.pop]
    rcases le_or_lt b.writeIdx b.readIdx with h | h
    · rw [if_pos h, if_neg (by omega)]
    · rw [if_neg (by omega), if_pos h]
  · intro ps size h
    have h1 : JitterBuffer.empty size =
        ⟨([] : List (Option AudioPacket)) ++ List.replicate size none,
          ([] : List (Option AudioPacket)).length, 0⟩ := by
      simp [JitterBuffer.empty]
    rw [h1, pushAll_empty ps [] size (by simpa using h)]
    have h2 := popN_drain ps 0 (size - ps.length)
    simp only [List.nil_append, List.replicate, Nat.zero_add, List.length_nil] at h2 ⊢
    rw [h2]
    exact ⟨rfl, by simp [JitterBuffer.bufferDepth]⟩

/-- C8 counterexample: six in-order pushes into a size-5 ring (the smallest
size `JitterBuffer::new` produces); the first pop returns the sixth packet,
because the wrap-around overwrote slot 0, so pops do not return the packets in
the pushed order. -/
theorem C8_counterexample :
    (c8Over.pop).1 = some (c8Packet 6) ∧ c8Packet 6 ≠ c8Packet 1 :=
  ⟨rfl, by decide⟩

/-- C8 witness: the pop description applied to the concrete overfilled buffer,
and the FIFO property applied to three packets in a size-5 ring. -/
theorem C8_witness :
    (0 < c8Over.frames.length ∧
      (c8Over.pop).1 = if c8Over.readIdx < c8Over.writeIdx then
        c8Over.frames.getD (c8Over.readIdx % c8Over.frames.length) none else none) ∧
    ([c8Packet 1, c8Packet 2, c8Packet 3].length ≤ 5 ∧
      (popN [c8Packet 1, c8Packet 2, c8Packet 3].length
        (pushAll [c8Packet 1, c8Packet 2, c8Packet 3] (JitterBuffer.empty 5))).1 =
        [c8Packet 1, c8Packet 2, c8Packet 3].map some) :=
  ⟨⟨by decide, C8_jitter_fifo.1 c8Over (by decide)⟩,
   ⟨by decide, (C8_jitter_fifo.2 [c8Packet 1, c8Packet 2, c8Packet 3] 5 (by decide)).1⟩⟩

theorem lexLe_refl (l : List Nat) : lexLe l l = true := by
  induction l with
  | nil => rfl
  | cons x xs ih => simp [lexLe, ih]

theorem lexLe_total (a b : List Nat) : lexLe a b = true ∨ lexLe b a = true := by
  induction a generalizing b with
  | nil => left; rfl
  | cons x xs ih =>
    cases b with
    | nil => right; rfl
    | cons y ys =>
      rcases Nat.lt_trichotomy x y with h | h | h
      · left; simp [lexLe, h]
      · subst h
        rcases ih ys with h2 | h2
        · left; simp [lexLe, h2]
        · right; simp [lexLe, h2]
      · right; simp [lexLe, h]

theorem lexLe_trans (a b c : List Nat) (h1 : lexLe a b = true) (h2 : lexLe b c = true) :
    lexLe a c = true := by
  induction a generalizing b c with
  | nil => rfl
  | cons x xs ih =>
    cases b with
    | nil => simp [lexLe] at h1
    | cons y ys =>
      cases c with
      | nil => simp [lexLe] at h2
      | cons z zs =>
        rw [lexLe] at h1 h2 ⊢
        by_cases hxy : x < y
        · by_cases hyz : y < z
          · simp [Nat.lt_trans hxy hyz]
          · by_cases hyz2 : y = z
            · subst hyz2; simp [hxy]
            · simp [hyz, hyz2] at h2
        · by_cases hxy2 : x = y
          · subst hxy2
            rw [if_neg hxy, if_pos rfl] at h1
            by_cases hxz : x < z
            · simp [hxz]
            · by_cases hxz2 : x = z
              · subst hxz2
                rw [if_neg hxz, if_pos rfl] at h2 ⊢
                exact ih ys zs h1 h2
              · simp [hxz, hxz2] at h2
          · simp [hxy, hxy2] at h1

theorem strLe_refl (s : String) : strLe s s = true := lexLe_refl _

theorem strLe_total (a b : String) : strLe a b = true ∨ strLe b a = true := lexLe_total _ _

theorem strLe_trans (a b c : String) (h1 : strLe a b = true) (h2 : strLe b c = true) :
    strLe a c = true := lexLe_trans _ _ _ h1 h2

theorem head_insertionSort_min (l : List String) (s : String) (t : List String)
    (h : List.insertionSort (fun a b => strLe a b = true) l = s :: t) :
    s ∈ l ∧ ∀ x ∈ l, strLe s x = true := by
  haveI htot : IsTotal String (fun a b => strLe a b = true) := ⟨fun a b => strLe_total a b⟩
  haveI htr : IsTrans String (fun a b => strLe a b = true) :=
    ⟨fun a b c => strLe_trans a b c⟩
  have hperm := List.perm_insertionSort (fun a b => strLe a b = true) l
  rw [h] at hperm
  have hsorted := List.sorted_insertionSort (fun a b => strLe a b = true) l
  rw [h] at hsorted
  refine ⟨hperm.mem_iff.mp (List.mem_cons_self s t), ?_⟩
  intro x hx
  rcases List.mem_cons.mp (hperm.mem_iff.mpr hx) with rfl | hxt
  · exact strLe_refl x
  · exact List.rel_of_sorted_cons hsorted x hxt

theorem setMixer_currentMixer (m : MixerManager) (now : Nat) (pid : String) :
    (m.setMixer now pid).currentMixer = some pid := by
  rw [MixerManager.setMixer]
  by_cases h : pid = m.localPeerId <;> simp [h]

theorem setMixer_topologyMode (m : MixerManager) (now : Nat) (pid : String) :
    (m.setMixer now pid).topologyMode = m.topologyMode := by
  rw [MixerManager.setMixer]
  by_cases h : pid = m.localPeerId <;> simp [h]

theorem setMixer_config (m : MixerManager) (now : Nat) (pid : String) :
    (m.setMixer now pid).config = m.config := by
  rw [MixerManager.setMixer]
  by_cases h : pid = m.localPeerId <;> simp [h]

theorem setMixer_participants_length (m : MixerManager) (now : Nat) (pid : String) :
    (m.setMixer now pid).participants.length = m.participants.length := by
  rw [MixerManager.setMixer]
  cases m.currentMixer <;> by_cases h : pid = m.localPeerId <;> simp [h]

theorem selectMixer_topologyMode (m : MixerManager) (now : Nat) :
    ((m.selectMixer now).2).topologyMode = m.topologyMode := by
  rw [MixerManager.selectMixer]
  split
  · rfl
  · split
    · split <;> simp [setMixer_topologyMode]
    · simp [setMixer_topologyMode]
    · rfl

theorem selectMixer_config (m : MixerManager) (now : Nat) :
    ((m.selectMixer now).2).config = m.config := by
  rw [MixerManager.selectMixer]
  split
  · rfl
  · split
    · split <;> simp [setMixer_config]
    · simp [setMixer_config]
    · rfl

theorem selectMixer_participants_length (m : MixerManager) (now : Nat) :
    ((m.selectMixer now).2).participants.length = m.participants.length := by
  rw [MixerManager.selectMixer]
  split
  · rfl
  · split
    · split <;> simp [setMixer_participants_length]
    · simp [setMixer_participants_length]
    · simp

theorem sortScores_ne_nil (m : MixerManager) (now : Nat) :
    sortScores (m.allScores now) ≠ [] := by
  intro hnil
  have hlen := (List.perm_insertionSort (fun a b : String × ℚ => b.2 ≤ a.2)
    (m.allScores now)).length_eq
  rw [sortScores] at hnil
  rw [hnil] at hlen
  simp [MixerManager.allScores] at hlen

theorem selectMixer_isSome (m : MixerManager) (now : Nat)
    (h : m.topologyMode = TopologyMode.SFU) :
    (((m.selectMixer now).2).currentMixer).isSome = true := by
  rcases hs : sortScores (m.allScores now) with _ | ⟨top, tail⟩
  · exact absurd hs (sortScores_ne_nil m now)
  · rw [MixerManager.selectMixer, if_neg (by simp [h])]
    cases tail with
    | nil => simp [hs, setMixer_currentMixer]
    | cons second rest =>
      simp only [hs]
      split <;> simp [setMixer_currentMixer]

theorem updateTopologyMode_topologyMode (m : MixerManager) (now : Nat) :
    ((m.updateTopologyMode now).topologyMode) =
      (if m.participants.length + 1 ≤ m.config.fullMeshThreshold then TopologyMode.FullMesh
        else TopologyMode.SFU) := by
  rw [MixerManager.updateTopologyMode]
  by_cases hc : m.participants.length + 1 ≤ m.config.fullMeshThreshold
  · simp only [if_pos hc]
    by_cases hm : TopologyMode.FullMesh ≠ m.topologyMode
    · rw [if_pos hm, if_neg (by simp)]
    · rw [if_neg hm]
      exact (not_not.mp hm).symm
  · simp only [if_neg hc]
    by_cases hm : TopologyMode.SFU ≠ m.topologyMode
    · rw [if_pos hm]
      by_cases hmix : m.currentMixer = none
      · rw [if_pos ⟨trivial, hmix⟩, selectMixer_topologyMode]
      · rw [if_neg (by simp [hmix])]
    · rw [if_neg hm]
      exact (not_not.mp hm).symm

theorem updateTopologyMode_config (m : MixerManager) (now : Nat) :
    ((m.updateTopologyMode now).config) = m.config := by
  rw [MixerManager.updateTopologyMode]
  by_cases hc : m.participants.length + 1 ≤ m.config.fullMeshThreshold
  · simp only [if_pos hc]
    by_cases hm : TopologyMode.FullMesh ≠ m.topologyMode
    · rw [if_pos hm, if_neg (by simp)]
    · rw [if_neg hm]
  · simp only [if_neg hc]
    by_cases hm : TopologyMode.SFU ≠ m.topologyMode
    · rw [if_pos hm]
      by_cases hmix : m.currentMixer = none
      · rw [if_pos ⟨trivial, hmix⟩, selectMixer_config]
      · rw [if_neg (by simp [hmix])]
    · rw [if_neg hm]

theorem updateTopologyMode_participants_length (m : MixerManager) (now : Nat) :
    ((m.updateTopologyMode now).participants.length) = m.participants.length := by
  rw [MixerManager.updateTopologyMode]
  by_cases hc : m.participants.length + 1 ≤ m.config.fullMeshThreshold
  · simp only [if_pos hc]
    by_cases hm : TopologyMode.FullMesh ≠ m.topologyMode
    · rw [if_pos hm, if_neg (by simp)]
    · rw [if_neg hm]
  · simp only [if_neg hc]
    by_cases hm : TopologyMode.SFU ≠ m.topologyMode
    · rw [if_pos hm]
      by_cases hmix : m.currentMixer = none
      · rw [if_pos ⟨trivial, hmix⟩, selectMixer_participants_length]
      · rw [if_neg (by simp [hmix])]
    · rw [if_neg hm]

/-- C6: after every add_participant or remove_participant the topology mode is
FullMesh exactly when participant_count (remote participants plus the local
peer) is at most the threshold and SFU exactly when it exceeds it; and on
crossing upward into SFU with no current mixer, select_mixer runs, so a mixer
is chosen. -/
theorem C6_topology_threshold :
    (∀ (m : MixerManager) (now : Nat) (pid : String),
      (m.addParticipant now pid).topologyMode =
        (if (m.addParticipant now pid).participants.length + 1 ≤ m.config.fullMeshThreshold
          then TopologyMode.FullMesh else TopologyMode.SFU)) ∧
    (∀ (m : MixerManager) (now : Nat) (pid : String),
      (m.removeParticipant now pid).topologyMode =
        (if (m.removeParticipant now pid).participants.length + 1 ≤ m.config.fullMeshThreshold
          then TopologyMode.FullMesh else TopologyMode.SFU)) ∧
    (∀ (m : MixerManager) (now : Nat) (pid : String),
      m.currentMixer = none → m.topologyMode = TopologyMode.FullMesh →
      m.config.fullMeshThreshold <
        (insertParticipant m.participants pid (Participant.new pid now)).length + 1 →
      ((m.addParticipant now pid).currentMixer).isSome = true) := by
  refine ⟨?_, ?_, ?_⟩
  · intro m now pid
    rw [MixerManager.addParticipant, updateTopologyMode_topologyMode,
      updateTopologyMode_participants_length]
  · intro m now pid
    rw [MixerManager.removeParticipant, updateTopologyMode_topologyMode,
      updateTopologyMode_participants_length]
    by_cases hm : ({ m with participants :=
        m.participants.filter fun p => ¬ p.1 = pid} : MixerManager).currentMixer = some pid
    · rw [if_pos hm, selectMixer_participants_length, selectMixer_config]
    · rw [if_neg hm]
  · intro m now pid hmix hmode hcount
    rw [MixerManager.addParticipant, MixerManager.updateTopologyMode]
    have hc : ¬((insertParticipant m.participants pid (Participant.new pid now)).length + 1 ≤
        m.config.fullMeshThreshold) := by omega
    simp only [hc, if_false, hmode, hmix]
    simp only [ne_eq, reduceCtorEq, not_false_eq_true, if_true, and_self]
    exact selectMixer_isSome _ now rfl

/-- C6 witness: adding a second remote to the threshold-2 manager with no
mixer crosses into SFU and selects a mixer. -/
theorem C6_witness :
    (c6Manager.addParticipant 0 "peer_b").topologyMode =
      (if (c6Manager.addParticipant 0 "peer_b").participants.length + 1 ≤
        c6Manager.config.fullMeshThreshold then TopologyMode.FullMesh else TopologyMode.SFU) ∧
    (c6Manager.currentMixer = none ∧ c6Manager.topologyMode = TopologyMode.FullMesh ∧
      c6Manager.config.fullMeshThreshold <
        (insertParticipant c6Manager.participants "peer_c"
          (Participant.new "peer_c" 0)).length + 1) ∧
    ((c6Manager.addParticipant 0 "peer_c").currentMixer).isSome = true :=
  ⟨C6_topology_threshold.1 c6Manager 0 "peer_b",
   ⟨by decide, by decide, by decide⟩,
   C6_topology_threshold.2.2 c6Manager 0 "peer_c" (by decide) (by decide) (by decide)⟩

/-- C7: whenever select_mixer runs in SFU mode and the relative score gap
between the top two sorted candidates is below 5 percent, the selected mixer is
the lexicographically smallest peer id of the candidate set (deterministic for
every node seeing the same candidates and scores, whatever the score function);
and on the concrete candidate set {peer_c, peer_a, peer_b} all at score 9/10,
resolve_tie returns peer_a. -/
theorem C7_tie_break :
    (∀ (m : MixerManager) (now : Nat) (top second : String × ℚ) (rest : List (String × ℚ)),
      m.topologyMode = TopologyMode.SFU →
      sortScores (m.allScores now) = top :: second :: rest →
      (top.2 - second.2) / max top.2 (1 / 1000) < 1 / 20 →
      ∃ sel, (m.selectMixer now).1 = some sel ∧
        sel ∈ (m.allScores now).map Prod.fst ∧
        ∀ pid ∈ (m.allScores now).map Prod.fst, strLe sel pid = true) ∧
    resolveTie [("peer_c", 9 / 10), ("peer_a", 9 / 10), ("peer_b", 9 / 10)] = "peer_a" := by
  constructor
  · intro m now top second rest hmode hsort htie
    have hres : (m.selectMixer now).1 = some (resolveTie (top :: second :: rest)) := by
      rw [MixerManager.selectMixer, if_neg (by simp [hmode])]
      simp only [hsort]
      rw [if_pos htie]
      simp [setMixer_currentMixer]
    have hperm : List.Perm (top :: second :: rest) (m.allScores now) := by
      have hp := List.perm_insertionSort (fun a b : String × ℚ => b.2 ≤ a.2) (m.allScores now)
      rw [sortScores] at hsort
      rw [hsort] at hp
      exact hp
    have hpermF := hperm.map Prod.fst
    rcases hsi : List.insertionSort (fun a b => strLe a b = true)
        ((top :: second :: rest).map Prod.fst) with _ | ⟨s, t⟩
    · exfalso
      have hlen := (List.perm_insertionSort (fun a b => strLe a b = true)
        ((top :: second :: rest).map Prod.fst)).length_eq
      rw [hsi] at hlen
      simp at hlen
    · have hmin := head_insertionSort_min ((top :: second :: rest).map Prod.fst) s t hsi
      refine ⟨s, ?_, ?_, ?_⟩
      · rw [hres, resolveTie, hsi]
        rfl
      · exact hpermF.mem_iff.mp hmin.1
      · intro pid hpid
        exact hmin.2 pid (hpermF.mem_iff.mpr hpid)
  · decide

/-- C7 witness: the theorem applied to the SFU manager whose candidates peer_c,
peer_b and the local peer_a all score 9/10. -/
theorem C7_witness :
    c7Manager.topologyMode = TopologyMode.SFU ∧
    sortScores (c7Manager.allScores 0) =
      ("peer_c", 9 / 10) :: ("peer_b", 9 / 10) :: [("peer_a", 9 / 10)] ∧
    ∃ sel, (c7Manager.selectMixer 0).1 = some sel ∧
      sel ∈ (c7Manager.allScores 0).map Prod.fst ∧
      ∀ pid ∈ (c7Manager.allScores 0).map Prod.fst, strLe sel pid = true :=
  have hsort : sortScores (c7Manager.allScores 0) =
      ("peer_c", 9 / 10) :: ("peer_b", 9 / 10) :: [("peer_a", 9 / 10)] := by
    norm_num +decide [sortScores, MixerManager.allScores, c7Manager, c7ScoreFn,
      MixerConfig.default, Participant.new, ParticipantStats.new, List.insertionSort,
      List.orderedInsert]
  ⟨rfl, hsort,
   C7_tie_break.1 c7Manager 0 ("peer_c", 9 / 10) ("peer_b", 9 / 10) [("peer_a", 9 / 10)]
     rfl hsort (by norm_num)⟩

set_option maxHeartbeats 1600000 in
/-- C5 (code bug exhibited): in the trace behind `c5Final` the local peer
"alocal" is elected mixer first; when select_mixer then hands the mixer role to
the better-scoring remote "peer_b", set_mixer demotes only participants found
in the map — the local peer is not in it — so local_role stays Mixer:
is_mixer() still returns true while peer_b simultaneously holds role Mixer,
contradicting the demote-the-previous-mixer rule and the at-most-one-mixer
consequence. -/
theorem C5_local_mixer_not_demoted :
    c5Final.isMixer = true ∧ c5Final.currentMixer = some "peer_b" ∧
      (c5Final.participants.lookup "peer_b").map Participant.role = some MixerRole.Mixer := by
  norm_num +decide [c5Final, c5AfterJoins, c5Start, c5Config, c5Stats, MixerManager.new,
    MixerManager.addParticipant, MixerManager.updateTopologyMode,
    MixerManager.selectMixer, MixerManager.setMixer, MixerManager.allScores, sortScores,
    resolveTie, MixerManager.updateParticipantStats, MixerManager.isMixer, insertParticipant,
    Participant.new, ParticipantStats.new, exScoreFn, List.insertionSort, List.orderedInsert,
    List.lookup]

theorem hkdf_length (ikm info : List Nat) : (hkdfSha256Expand32 ikm info).length = 32 := by
  simp [hkdfSha256Expand32]

theorem updateRoom_keys (rooms : List (String × RoomKeys)) (rid : String) (rk : RoomKeys) :
    (updateRoom rooms rid rk).map Prod.fst = rooms.map Prod.fst := by
  induction rooms with
  | nil => rfl
  | cons q rest ih =>
    by_cases hq : q.1 = rid <;> simp [updateRoom, hq] <;>
      simpa [updateRoom] using ih

theorem checkRotation_events_none (rooms : List (String × RoomKeys)) (rid : String)
    (interval now : Nat) (h : rid ∉ rooms.map Prod.fst) :
    (((rooms.filter fun p => p.2.nextRotation ≤ now).map
      fun p => (rotateRoomKey p.1 p.2 interval now).1).filter fun e => e.roomId == rid) = [] := by
  induction rooms with
  | nil => rfl
  | cons q rest ih =>
    simp only [List.map_cons, List.mem_cons] at h
    push_neg at h
    by_cases hdueq : q.2.nextRotation ≤ now
    · rw [List.filter_cons_of_pos (by simpa using hdueq), List.map_cons,
        List.filter_cons_of_neg (by simpa using fun he => h.1 he.symm)]
      exact ih h.2
    · rw [List.filter_cons_of_neg (by simpa using hdueq)]
      exact ih h.2

theorem checkRotation_events (rooms : List (String × RoomKeys)) (rid : String) (room : RoomKeys)
    (interval now : Nat) (hnodup : (rooms.map Prod.fst).Nodup)
    (hlook : lookupRoom rooms rid = some room) (hdue : room.nextRotation ≤ now) :
    (((rooms.filter fun p => p.2.nextRotation ≤ now).map
      fun p => (rotateRoomKey p.1 p.2 interval now).1).filter fun e => e.roomId == rid) =
      [(rotateRoomKey rid room interval now).1] := by
  induction rooms with
  | nil => simp [lookupRoom] at hlook
  | cons q rest ih =>
    rw [lookupRoom] at hlook
    rw [List.map_cons, List.nodup_cons] at hnodup
    by_cases hq : q.1 = rid
    · rw [if_pos hq] at hlook
      obtain rfl := Option.some.inj hlook
      rw [List.filter_cons_of_pos (by simpa using hdue), List.map_cons,
        List.filter_cons_of_pos (by simpa using hq)]
      rw [checkRotation_events_none rest rid interval now (hq ▸ hnodup.1)]
      rw [← hq]
    · rw [if_neg hq] at hlook
      by_cases hdueq : q.2.nextRotation ≤ now
      · rw [List.filter_cons_of_pos (by simpa using hdueq), List.map_cons,
          List.filter_cons_of_neg (by simpa using fun he => hq he)]
        exact ih hnodup.2 hlook
      · rw [List.filter_cons_of_neg (by simpa using hdueq)]
        exact ih hnodup.2 hlook

theorem checkRotation_lookup (rooms : List (String × RoomKeys)) (rid : String) (room : RoomKeys)
    (interval now : Nat) (hlook : lookupRoom rooms rid = some room)
    (hdue : room.nextRotation ≤ now) :
    lookupRoom (rooms.map fun p => if p.2.nextRotation ≤ now then
      (p.1, (rotateRoomKey p.1 p.2 interval now).2) else p) rid =
      some (rotateRoomKey rid room interval now).2 := by
  induction rooms with
  | nil => simp [lookupRoom] at hlook
  | cons q rest ih =>
    rw [lookupRoom] at hlook
    by_cases hq : q.1 = rid
    · rw [if_pos hq] at hlook
      obtain rfl := Option.some.inj hlook
      rw [List.map_cons, if_pos hdue, lookupRoom, if_pos hq, hq]
    · rw [if_neg hq] at hlook
      rw [List.map_cons]
      by_cases hdueq : q.2.nextRotation ≤ now
      · rw [if_pos hdueq, lookupRoom, if_neg hq]
        exact ih hlook
      · rw [if_neg hdueq, lookupRoom, if_neg hq]
        exact ih hlook

/-- C3: for every room of the manager whose scheduled rotation instant has
passed, check_rotation emits exactly one KeyRotationEvent for that room,
carrying new_key_id = old_id + 1 and previous_key_id = Some(old_id); the room
afterwards holds a current key of id old_id + 1 whose bytes are
HKDF-SHA256-derived from the old key with the new id's little-endian bytes as
info and whose lifetime is the rotation interval, the old key moved to
previous, and the next rotation rescheduled to now + interval; and a message
encrypted under the old key before the rotation still decrypts afterwards via
the non-expired previous key. -/
theorem C3_key_rotation (m : SessionKeyManager) (rid : String) (room : RoomKeys) (p : List Nat)
    (now₀ now₁ now₂ : Nat) (msg : EncryptedMessage) (m₁ : SessionKeyManager)
    (hnodup : (m.rooms.map Prod.fst).Nodup)
    (hlook : lookupRoom m.rooms rid = some room)
    (hkeylen : room.currentKey.key.key.length = 32)
    (hexp0 : room.currentKey.key.isExpired now₀ = false)
    (hlt : room.currentKey.sendCounter < 2 ^ 64)
    (hfresh : (room.currentKey.recvCounters.any fun q => q.1 == room.currentKey.sendCounter)
      = false)
    (henc : m.encrypt now₀ rid p = (.ok msg, m₁))
    (hdue : room.nextRotation ≤ now₁)
    (hexp2 : room.currentKey.key.isExpired now₂ = false) :
    ((((m₁.checkRotation now₁).1).filter fun e => e.roomId == rid) =
      [⟨rid, room.currentKey.id + 1, some room.currentKey.id⟩]) ∧
    (∃ room₂, lookupRoom ((m₁.checkRotation now₁).2).rooms rid = some room₂ ∧
      room₂.currentKey.id = room.currentKey.id + 1 ∧
      room₂.currentKey.key.key =
        hkdfSha256Expand32 room.currentKey.key.key (toLEBytes8 (room.currentKey.id + 1)) ∧
      room₂.currentKey.key.expiresAfter = m.rotationInterval ∧
      (∃ prev, room₂.previousKey = some prev ∧ prev.key = room.currentKey.key ∧
        prev.id = room.currentKey.id) ∧
      room₂.nextRotation = now₁ + m.rotationInterval) ∧
    (((m₁.checkRotation now₁).2.decrypt now₂ rid msg).1 = .ok p) := by
  simp only [SessionKeyManager.encrypt, hlook, SessionKeyInfo.encrypt, hexp0,
    Bool.false_eq_true, if_false, Prod.mk.injEq, Except.ok.injEq] at henc
  obtain ⟨hmsg, hm₁⟩ := henc
  subst hmsg
  subst hm₁
  have hlook₁ : lookupRoom (updateRoom m.rooms rid { room with currentKey :=
      { room.currentKey with sendCounter := (room.currentKey.sendCounter + 1) % 2 ^ 64 } }) rid =
      some { room with currentKey :=
      { room.currentKey with sendCounter := (room.currentKey.sendCounter + 1) % 2 ^ 64 } } :=
    lookup_updateRoom m.rooms rid _ room hlook
  have hnodup₁ : ((updateRoom m.rooms rid { room with currentKey :=
      { room.currentKey with sendCounter :=
        (room.currentKey.sendCounter + 1) % 2 ^ 64 } }).map Prod.fst).Nodup := by
    rw [updateRoom_keys]
    exact hnodup
  refine ⟨?_, ?_, ?_⟩
  · exact checkRotation_events _ rid { room with currentKey :=
      { room.currentKey with sendCounter := (room.currentKey.sendCounter + 1) % 2 ^ 64 } }
      m.rotationInterval now₁ hnodup₁ hlook₁ hdue
  · exact ⟨_, checkRotation_lookup _ rid { room with currentKey :=
      { room.currentKey with sendCounter := (room.currentKey.sendCounter + 1) % 2 ^ 64 } }
      m.rotationInterval now₁ hlook₁ hdue, rfl, rfl, rfl, ⟨_, rfl, rfl, rfl⟩, rfl⟩
  · have hcnt : extractCounter (deriveNonce room.currentKey.sendCounter) =
        room.currentKey.sendCounter := by
      rw [extract_derive, Nat.mod_eq_of_lt hlt]
    have hrooms : ((SessionKeyManager.checkRotation
        { rooms := updateRoom m.rooms rid { room with currentKey :=
            { room.currentKey with sendCounter := (room.currentKey.sendCounter + 1) % 2 ^ 64 } },
          rotationInterval := m.rotationInterval } now₁).2).rooms =
        ((updateRoom m.rooms rid { room with currentKey :=
          { room.currentKey with
            sendCounter := (room.currentKey.sendCounter + 1) % 2 ^ 64 } }).map
          fun q => if q.2.nextRotation ≤ now₁ then
            (q.1, (rotateRoomKey q.1 q.2 m.rotationInterval now₁).2) else q) := rfl
    have hpost := checkRotation_lookup (updateRoom m.rooms rid { room with currentKey :=
      { room.currentKey with sendCounter := (room.currentKey.sendCounter + 1) % 2 ^ 64 } })
      rid { room with currentKey :=
      { room.currentKey with sendCounter := (room.currentKey.sendCounter + 1) % 2 ^ 64 } }
      m.rotationInterval now₁ hlook₁ hdue
    set room₂ := (rotateRoomKey rid { room with currentKey :=
      { room.currentKey with sendCounter := (room.currentKey.sendCounter + 1) % 2 ^ 64 } }
      m.rotationInterval now₁).2 with hroom₂
    have hprev : room₂.previousKey = some { room.currentKey with
        sendCounter := (room.currentKey.sendCounter + 1) % 2 ^ 64 } := rfl
    have hempty : room₂.currentKey.recvCounters = [] := rfl
    by_cases hnew : room₂.currentKey.key.isExpired now₂ = true
    · simp only [SessionKeyManager.decrypt, hrooms, hpost, SessionKeyInfo.decrypt, hnew,
        if_true, hprev, SessionKeyInfo.isExpired, hexp2, Bool.false_eq_true, if_false, hcnt,
        hempty, hfresh, aead_round_trip]
    · rw [Bool.not_eq_true] at hnew
      by_cases hk : room₂.currentKey.key.key = room.currentKey.key.key
      · simp only [SessionKeyManager.decrypt, hrooms, hpost, SessionKeyInfo.decrypt, hnew,
          Bool.false_eq_true, if_false, hempty, List.any_nil, hk, aead_round_trip]
      · have hwrong : aeadDecrypt room₂.currentKey.key.key
            (deriveNonce room.currentKey.sendCounter)
            (aeadEncrypt room.currentKey.key.key (deriveNonce room.currentKey.sendCounter) p) =
            none := by
          refine aead_wrong_key _ _ _ _ p ?_ hk
          have hlen32 : room₂.currentKey.key.key.length = 32 := hkdf_length _ _
          rw [hlen32, hkeylen]
        simp only [SessionKeyManager.decrypt, hrooms, hpost, SessionKeyInfo.decrypt, hnew,
          Bool.false_eq_true, if_false, hempty, List.any_nil, hwrong, hprev,
          SessionKeyInfo.isExpired, hexp2, hcnt, hfresh, aead_round_trip]

/-- C3 witness: the S2 scenario — interval 50, room created at 0, "pre"
encrypted at 10, rotation checked at 60 (one event, new id 2, previous Some 1),
decryption at 70 still succeeds via the previous key. -/
theorem C3_witness :
    (lookupRoom c3Manager.rooms "test-room" = some c3Room ∧ c3Room.nextRotation ≤ 60) ∧
    ((((c3EncR.2).checkRotation 60).1).filter fun e => e.roomId == "test-room") =
      [⟨"test-room", 2, some 1⟩] ∧
    (((c3EncR.2).checkRotation 60).2.decrypt 70 "test-room" c3Msg).1 =
      .ok (strBytes "pre") :=
  have h := C3_key_rotation c3Manager "test-room" c3Room (strBytes "pre") 10 60 70 c3Msg
    c3EncR.2 (by decide) (by decide) (by decide) (by decide) (by decide) (by decide) rfl
    (by decide) (by decide)
  ⟨⟨by decide, by decide⟩, h.1, h.2.2⟩

end Agora
